import Mathlib

/-!
A model of the AIDL front end: the parsing/validation pipeline, the
per-backend type namespace, and the preprocessed-declarations codec.

The repository ships only the unit tests (`aidl_unittest.cpp`,
`type_java_unittest.cpp`); the implementation they exercise
(`load_and_validate_aidl`, `TypeNamespace`, `parse_preprocessed_file`,
`preprocess_aidl`, `compile_aidl_to_java`) is not part of the sources.  The
definitions below are therefore modelled from the specification, at the level
of the abstract syntax the spec describes: a source file is represented by its
parsed `Document` (package, imports, one declaration), the file system and the
import-path search are represented by a finite map from qualified import name
to the document the search would find, and the preprocessed-declarations codec
works on the actual file text, character by character.
-/

namespace Aidl

/-- Modelled from the spec: the kind of a registered type (built-in primitive,
parcelable, interface, or a lazily added generic container). -/
inductive TypeKind
  | builtin
  | parcelable
  | iface
  | container
deriving DecidableEq, Repr

/-- Modelled from the spec: the two backend flavors, a managed-runtime (Java)
one and a native (C++) one, each with its own type namespace instance. -/
inductive Backend
  | java
  | cpp
deriving DecidableEq, Repr

/-- Modelled from the spec: a backend type descriptor exposes a canonical
qualified name (kept here as its dotted components), its declaration kind and,
for native backends, an optional header dependency. -/
structure TypeDescriptor where
  components : List String
  kind : TypeKind
  header : Option String
deriving DecidableEq, Repr

/-- The characters of a dotted qualified name built from its components. -/
def dottedChars : List String → List Char
  | [] => []
  | [s] => s.data
  | s :: rest => s.data ++ '.' :: dottedChars rest

/-- A dotted qualified name as a string. -/
def dottedStr (cs : List String) : String := String.mk (dottedChars cs)

/-- The characters after the last `.` of a name (the simple name). -/
def lastSegment (cs : List Char) : List Char :=
  (cs.reverse.takeWhile (fun c => c ≠ '.')).reverse

/-- The simple (unqualified) name of a dotted qualified name. -/
def simpleNameStr (s : String) : String := String.mk (lastSegment s.data)

/-- Splitting a dotted name back into components (accumulator of the current
component, reversed). -/
def splitDotsAux : List Char → List Char → List String
  | [], acc => [String.mk acc.reverse]
  | c :: cs, acc =>
    if c = '.' then String.mk acc.reverse :: splitDotsAux cs []
    else splitDotsAux cs (c :: acc)

/-- The components of a dotted qualified name. -/
def splitDots (s : String) : List String := splitDotsAux s.data []

/-- Modelled from the spec: the dotted canonical qualified name a descriptor
answers for (`Type::QualifiedName` in the tests). -/
def TypeDescriptor.QualifiedName (d : TypeDescriptor) : String :=
  dottedStr d.components

/-- Modelled from the spec: the Java backend's instantiable spelling is the
dotted qualified name (`Type::InstantiableName`). -/
def TypeDescriptor.InstantiableName (d : TypeDescriptor) : String :=
  dottedStr d.components

/-- The `::`-separated spelling of a qualified name for the native backend. -/
def cppJoin : List String → List Char
  | [] => []
  | s :: rest => ':' :: ':' :: s.data ++ cppJoin rest

/-- Modelled from the spec: the native backend's spelling of a type
(`Type::CppType`), e.g. `::p::Bar`. -/
def TypeDescriptor.CppType (d : TypeDescriptor) : String :=
  String.mk (cppJoin d.components)

/-- Modelled from the spec: the header/include dependencies a native
descriptor exposes (`Type::GetHeaders`); non-native descriptors expose none. -/
def TypeDescriptor.GetHeaders (d : TypeDescriptor) : List String :=
  d.header.toList

/-! ## The abstract syntax of one declaration file -/

/-- Modelled from the spec: an argument direction, defaulting to `in` when
omitted in the source. -/
inductive Direction
  | in_
  | out
  | inout
deriving DecidableEq, Repr

/-- Modelled from the spec: a type reference in a method signature, a name
optionally marked as an array of that name. -/
structure TypeRef where
  name : String
  isArray : Bool
deriving DecidableEq, Repr

/-- Modelled from the spec: a method parameter. -/
structure Param where
  dir : Direction
  type : TypeRef
  name : String
deriving DecidableEq, Repr

/-- Modelled from the spec: a method of an interface declaration, with its own
`oneway` flag independent of the interface-level flag. -/
structure Method where
  oneway : Bool
  ret : TypeRef
  name : String
  params : List Param
deriving DecidableEq, Repr

/-- Modelled from the spec: an interface declaration. -/
structure InterfaceDecl where
  package : List String
  name : String
  oneway : Bool
  methods : List Method
deriving DecidableEq, Repr

/-- Modelled from the spec: a parcelable declaration; `name` has two
components for a compound (outer-qualified) parcelable such as `Outer.Inner`,
and `header` is the native backing header of a `parcelable X from "h";`
declaration. -/
structure ParcelableDecl where
  package : List String
  name : List String
  header : Option String
deriving DecidableEq, Repr

/-- Modelled from the spec: the single declaration a file contains. -/
inductive Decl
  | iface (i : InterfaceDecl)
  | parcelable (p : ParcelableDecl)
deriving DecidableEq, Repr

/-- Modelled from the spec: one parsed declaration file: its imports (dotted
qualified names) and its declaration (which carries the file's package). -/
structure Document where
  imports : List String
  decl : Decl
deriving DecidableEq, Repr

/-- The fully qualified components (package then declared name) of a
declaration. -/
def declQualComponents : Decl → List String
  | .iface i => i.package ++ [i.name]
  | .parcelable p => p.package ++ p.name

/-- The package-less components of a declaration's own name (for a compound
parcelable this keeps the outer qualifier). -/
def declLocalComponents : Decl → List String
  | .iface i => [i.name]
  | .parcelable p => p.name

/-- The registry kind of a declaration. -/
def declKind : Decl → TypeKind
  | .iface _ => .iface
  | .parcelable _ => .parcelable

/-- The native backing header of a declaration, when any. -/
def declHeader : Decl → Option String
  | .iface _ => none
  | .parcelable p => p.header

/-! ## The type namespace -/

/-- Modelled from the spec: a per-backend type namespace, a registry of
(spelling, descriptor) pairs grown monotonically.  File-backed registrations
are put in front and preprocessed-entry registrations behind, so that an
unqualified spelling that is ambiguous between the two resolves to the
file-backed one, as the import-precedence rule requires. -/
structure TypeNamespace where
  backend : Backend
  entries : List (String × TypeDescriptor)
deriving DecidableEq, Repr

/-- The built-in type names every namespace starts with. -/
def builtinNames : List String :=
  ["void", "boolean", "byte", "char", "int", "long", "float", "double", "String"]

/-- Modelled from the spec: `Init()` populates the built-ins of a fresh
backend namespace. -/
def TypeNamespace.init (b : Backend) : TypeNamespace :=
  ⟨b, builtinNames.map (fun s => (s, ⟨[s], .builtin, none⟩))⟩

/-- Modelled from the spec: `Find(name)` is an exact-match lookup over every
registered spelling, returning the descriptor of the winning registration. -/
def TypeNamespace.Find (ns : TypeNamespace) (name : String) : Option TypeDescriptor :=
  (ns.entries.find? (fun e => e.1 == name)).map (fun e => e.2)

/-- Modelled from the spec: `HasType(name)` is `Find(name)` succeeding. -/
def TypeNamespace.HasType (ns : TypeNamespace) (name : String) : Bool :=
  (ns.Find name).isSome

/-- Modelled from the spec: registering a declaration obtained from a real
(file-backed) import, or a file's own declaration: both the fully-qualified
spelling and the package-less spelling answer to the same descriptor; a
compound parcelable keeps its `Outer.` qualifier in the short spelling, so its
bare inner name does not resolve.  Native header data is kept only by the
native backend. -/
def TypeNamespace.addFromFile (ns : TypeNamespace) (d : Decl) : TypeNamespace :=
  let desc : TypeDescriptor :=
    ⟨declQualComponents d, declKind d,
      if ns.backend = .cpp then declHeader d else none⟩
  { ns with
    entries :=
      (dottedStr (declQualComponents d), desc)
        :: (dottedStr (declLocalComponents d), desc)
        :: ns.entries }

/-- Modelled from the spec: registering a nominal-only preprocessed entry:
the full qualified spelling and, as the documented legacy carve-out, the bare
simple name (even of a compound name) both answer to the descriptor.
Preprocessed registrations go behind existing entries so file-backed
registrations win ambiguous short names. -/
def TypeNamespace.addPreprocessed (ns : TypeNamespace) (e : TypeKind × String) :
    TypeNamespace :=
  let desc : TypeDescriptor := ⟨splitDots e.2, e.1, none⟩
  { ns with entries := ns.entries ++ [(e.2, desc), (simpleNameStr e.2, desc)] }

/-- Modelled from the spec: `AddParcelableType(decl, originFile)` registers a
parcelable's descriptor, failing on conflicting re-registration with a
different definition and succeeding idempotently on an identical one; the
origin file is only for diagnostics. -/
def TypeNamespace.AddParcelableType (ns : TypeNamespace) (p : ParcelableDecl)
    (originFile : String) : Bool × TypeNamespace :=
  let d := Decl.parcelable p
  let desc : TypeDescriptor :=
    ⟨declQualComponents d, .parcelable,
      if ns.backend = .cpp then p.header else none⟩
  match ns.Find (dottedStr (declQualComponents d)) with
  | some existing => (existing == desc, ns)
  | none => (true, ns.addFromFile d)

/-- Splitting a generic container spelling `Outer<Elem>` into the container
name and the element spelling. -/
def parseContainerChars (cs : List Char) : Option (List Char × List Char) :=
  let outer := cs.takeWhile (fun c => c ≠ '<')
  match cs.dropWhile (fun c => c ≠ '<') with
  | '<' :: inner =>
    match inner.reverse with
    | '>' :: revElem =>
      if outer.isEmpty || revElem.isEmpty then none
      else some (outer, revElem.reverse)
    | _ => none
  | _ => none

/-- Modelled from the spec: `MaybeAddContainerType(spelling)` lazily
synthesizes a descriptor for a generic container spelling such as `List<Foo>`
only if its element type is already known, and fails otherwise. -/
def TypeNamespace.MaybeAddContainerType (ns : TypeNamespace) (spelling : String) :
    Bool × TypeNamespace :=
  match parseContainerChars spelling.data with
  | none => (false, ns)
  | some (_, elemChars) =>
    if ns.HasType (String.mk elemChars) then
      (true, { ns with entries := (spelling, ⟨[spelling], .container, none⟩) :: ns.entries })
    else (false, ns)

/-! ## The preprocessed-declarations codec -/

/-- Dropping leading whitespace of a character list. -/
def trimLeftChars (cs : List Char) : List Char :=
  cs.dropWhile (fun c => c.isWhitespace)

/-- Dropping leading and trailing whitespace of a character list. -/
def trimChars (cs : List Char) : List Char :=
  (trimLeftChars (trimLeftChars cs).reverse).reverse

/-- Splitting a character list into maximal whitespace-free words; `acc` holds
the current word, reversed. -/
def splitWordsAux : List Char → List Char → List (List Char)
  | [], acc => if acc.isEmpty then [] else [acc.reverse]
  | c :: cs, acc =>
    if c.isWhitespace then
      if acc.isEmpty then splitWordsAux cs []
      else acc.reverse :: splitWordsAux cs []
    else splitWordsAux cs (c :: acc)

/-- The whitespace-separated words of a character list. -/
def splitWords (cs : List Char) : List (List Char) :=
  splitWordsAux cs []

/-- Prepending a character to the first of a list of lines. -/
def consHead (c : Char) : List (List Char) → List (List Char)
  | [] => [[c]]
  | l :: ls => (c :: l) :: ls

/-- Splitting file text into lines at each newline character. -/
def splitLinesChars : List Char → List (List Char)
  | [] => [[]]
  | c :: cs =>
    if c = '\n' then [] :: splitLinesChars cs
    else consHead c (splitLinesChars cs)

/-- Interpreting the two words of a preprocessed line: a declaration keyword
followed by the qualified name. -/
def ppKeyword (k n : List Char) : Option (Option (TypeKind × String)) :=
  if k = "parcelable".data then some (some (.parcelable, String.mk n))
  else if k = "interface".data then some (some (.iface, String.mk n))
  else none

/-- A preprocessed line's body must consist of exactly two words. -/
def ppWords : List (List Char) → Option (Option (TypeKind × String))
  | [k, n] => ppKeyword k n
  | _ => none

/-- The part of a preprocessed line before its `;` terminator. -/
def ppBody (body : List Char) : Option (Option (TypeKind × String)) :=
  ppWords (splitWords (trimChars body))

/-- A trimmed preprocessed line, seen from its last character: empty lines
are skipped, and otherwise the line must end in `;`. -/
def ppLineCore : List Char → Option (Option (TypeKind × String))
  | [] => some none
  | c :: rest => if c = ';' then ppBody rest.reverse else none

/-- Modelled from the spec: reading one line of a preprocessed-declarations
file.  Whitespace around the tokens and before the `;` terminator is ignored;
a blank line is skipped (`some none`); anything else that is not
`parcelable <name>;` or `interface <name>;` is malformed (`none`). -/
def parsePPLine (line : List Char) : Option (Option (TypeKind × String)) :=
  ppLineCore (trimChars line).reverse

/-- Reading every line of a preprocessed-declarations file, failing on the
first malformed line and skipping blank lines. -/
def parsePPLines : List (List Char) → Option (List (TypeKind × String))
  | [] => some []
  | l :: ls =>
    match parsePPLine l with
    | none => none
    | some none => parsePPLines ls
    | some (some e) => (parsePPLines ls).map (fun es => e :: es)

/-- Modelled from the spec: the (kind, qualified name) entries of a
preprocessed-declarations file's text, or `none` if any line is malformed. -/
def parsePreprocessedEntries (content : String) : Option (List (TypeKind × String)) :=
  parsePPLines (splitLinesChars content.data)

/-- Modelled from the spec: `parse_preprocessed_file` loads one preprocessed
file's entries into a namespace, failing on malformed lines; the file system
is abstracted, so the file's text is the argument. -/
def parse_preprocessed_file (content : String) (ns : TypeNamespace) :
    Option TypeNamespace :=
  (parsePreprocessedEntries content).map
    (fun es => es.foldl TypeNamespace.addPreprocessed ns)

/-- The characters a declaration's keyword contributes to a canonical
preprocessed line. -/
def kindChars : TypeKind → List Char
  | .parcelable => "parcelable".data
  | .iface => "interface".data
  | .builtin => "builtin".data
  | .container => "container".data

/-- The canonical preprocessed line of one input file's declaration, without
its terminating newline. -/
def preprocessLine (doc : Document) : List Char :=
  kindChars (declKind doc.decl) ++ ' ' :: dottedChars (declQualComponents doc.decl) ++ [';']

/-- Modelled from the spec: `preprocess_aidl` parses each input file (without
full import resolution) and writes one canonical `<kind> <qualified.name>;`
line per declaration, in input order, each terminated by a newline; the
result is the text written to the output file. -/
def preprocess_aidl (docs : List Document) : String :=
  String.mk ((docs.map (fun d => preprocessLine d ++ ['\n'])).flatten)

/-- The nominal (kind, qualified name) entry of one input file. -/
def declEntry (doc : Document) : TypeKind × String :=
  (declKind doc.decl, dottedStr (declQualComponents doc.decl))

/-! ## Import resolution and validation -/

/-- Loading every configured preprocessed file into the namespace at setup
time. -/
def loadPreprocessedList : List String → TypeNamespace → Option TypeNamespace
  | [], ns => some ns
  | c :: rest, ns =>
    match parse_preprocessed_file c ns with
    | none => none
    | some ns2 => loadPreprocessedList rest ns2

/-- Modelled from the spec: resolving one interface's imports.  The import
search over the import paths is abstracted as a finite map from imported
qualified name to the document the search finds; a file-backed hit is parsed
and registered, otherwise the import must already be known (from a
preprocessed entry), else resolution fails. -/
def resolveImports (env : List (String × Document)) (ns : TypeNamespace) :
    List String → Option TypeNamespace
  | [] => some ns
  | i :: is =>
    match env.find? (fun e => e.1 == i) with
    | some found => resolveImports env (ns.addFromFile found.2.decl) is
    | none => if ns.HasType i then resolveImports env ns is else none

/-- Modelled from the spec: a method type reference is valid when its name
resolves in the namespace and it is not an array whose element type is an
interface. -/
def typeOk (ns : TypeNamespace) (t : TypeRef) : Bool :=
  match ns.Find t.name with
  | none => false
  | some d => !(t.isArray && d.kind == .iface)

/-- Modelled from the spec: the oneway direction constraint on one method: a
method that is oneway (directly or via its interface) must return `void` and
take only `in` parameters. -/
def methodOnewayOk (ifaceOneway : Bool) (m : Method) : Bool :=
  !(m.oneway || ifaceOneway)
    || ((m.ret.name == "void" && !m.ret.isArray)
        && m.params.all (fun p => p.dir == .in_))

/-- Modelled from the spec: validating one method against the resolved
namespace. -/
def validateMethod (ns : TypeNamespace) (ifaceOneway : Bool) (m : Method) : Bool :=
  methodOnewayOk ifaceOneway m
    && typeOk ns m.ret
    && m.params.all (fun p => typeOk ns p.type)

/-- Modelled from the spec: the semantic validator.  An interface must have a
package under the native backend (the Java backend accepts a missing one) and
every method must pass; a parcelable-only file has nothing to validate. -/
def validateDoc (ns : TypeNamespace) (doc : Document) : Bool :=
  match doc.decl with
  | .parcelable _ => true
  | .iface i =>
    (ns.backend == .java || !i.package.isEmpty)
      && i.methods.all (fun m => validateMethod ns i.oneway m)

/-- Modelled from the spec: `load_and_validate_aidl` — load every
preprocessed file, register the target file's own declaration, resolve its
imports (file-backed hits first, falling back to already-known preprocessed
entries), then validate; returns the validated declaration (or `none` on any
failure) together with the namespace as it stands. -/
def load_and_validate_aidl (preprocessed : List String)
    (env : List (String × Document)) (doc : Document) (ns : TypeNamespace) :
    Option Decl × TypeNamespace :=
  match loadPreprocessedList preprocessed ns with
  | none => (none, ns)
  | some ns1 =>
    let ns2 := ns1.addFromFile doc.decl
    match resolveImports env ns2 doc.imports with
    | none => (none, ns2)
    | some ns3 =>
      (if validateDoc ns3 doc then some doc.decl else none, ns3)

/-- Modelled from the spec: the `compile_aidl_to_java` driver; it returns 0 on
success and 1 on failure, and it — not the validator — turns a successfully
validated parcelable-only file into a failure when the fail-on-parcelable
policy flag is set. -/
def compile_aidl_to_java (failOnParcelable : Bool) (preprocessed : List String)
    (env : List (String × Document)) (doc : Document) : Nat :=
  match (load_and_validate_aidl preprocessed env doc (TypeNamespace.init .java)).1 with
  | none => 1
  | some (Decl.iface _) => 0
  | some (Decl.parcelable _) => if failOnParcelable then 1 else 0

/-! ## Validity of qualified names (for the codec round trip) -/

/-- A character that can appear in a stored qualified name: not whitespace and
not the `;` terminator (`.` separators are allowed). -/
def nameChar (c : Char) : Bool := !c.isWhitespace && !(c == ';')

/-- A character of one qualified-name component: a `nameChar` that is not a
`.` separator. -/
def goodChar (c : Char) : Bool := nameChar c && !(c == '.')

/-- A well-formed qualified-name component (nonempty, only component
characters); every ASCII identifier qualifies. -/
def validComponent (s : String) : Bool := !s.data.isEmpty && s.data.all goodChar

/-- A well-formed qualified name: at least one component, all well formed. -/
def validQualName (cs : List String) : Bool := !cs.isEmpty && cs.all validComponent

/-- A document whose declared qualified name is well formed. -/
def validDoc (doc : Document) : Bool := validQualName (declQualComponents doc.decl)

/-- Modelled from the spec: a method violates the oneway direction constraint
when it is oneway (directly or via its interface) and has a non-`void` return
type or a parameter whose direction is not `in`. -/
def onewayViolation (ifaceOneway : Bool) (m : Method) : Bool :=
  (m.oneway || ifaceOneway)
    && (!(m.ret.name == "void" && !m.ret.isArray)
        || m.params.any (fun p => !(p.dir == Direction.in_)))

/-! ## The concrete inputs of the observable behaviors -/

/-- Running the pipeline on a self-contained file under the Java backend. -/
def runJava (doc : Document) : Option Decl :=
  (load_and_validate_aidl [] [] doc (TypeNamespace.init .java)).1

/-- Running the pipeline on a self-contained file under the C++ backend. -/
def runCpp (doc : Document) : Option Decl :=
  (load_and_validate_aidl [] [] doc (TypeNamespace.init .cpp)).1

/-- The preprocessed file `interface another.IBar;`. -/
def anotherIBarPre : List String := ["interface another.IBar;"]

/-- The import search finding `one/IBar.aidl`: `package one; interface IBar {}`. -/
def oneIBarEnv : List (String × Document) :=
  [("one.IBar", ⟨[], .iface ⟨["one"], "IBar", false, []⟩⟩)]

/-- `package p; import one.IBar; interface IFoo {}`. -/
def importOneIBarDoc : Document := ⟨["one.IBar"], .iface ⟨["p"], "IFoo", false, []⟩⟩

/-- The run of the import-precedence scenario under the Java backend. -/
def preferImportRun : Option Decl × TypeNamespace :=
  load_and_validate_aidl anotherIBarPre oneIBarEnv importOneIBarDoc (TypeNamespace.init .java)

/-- The method `void f(out int bar);`. -/
def outIntMethod (ow : Bool) : Method :=
  ⟨ow, ⟨"void", false⟩, "f", [⟨.out, ⟨"int", false⟩, "bar"⟩]⟩

/-- `package a; oneway interface IFoo { void f(out int bar); }`. -/
def onewayIfaceOutDoc : Document := ⟨[], .iface ⟨["a"], "IFoo", true, [outIntMethod false]⟩⟩

/-- `package a; interface IBar { oneway void f(out int bar); }`. -/
def onewayMethodOutDoc : Document := ⟨[], .iface ⟨["a"], "IBar", false, [outIntMethod true]⟩⟩

/-- `package a; interface IFoo { oneway int f(); }`. -/
def onewayIntRetDoc : Document :=
  ⟨[], .iface ⟨["a"], "IFoo", false, [⟨true, ⟨"int", false⟩, "f", []⟩]⟩⟩

/-- `package a; interface IFoo { oneway void f(int a); }`. -/
def acceptOnewayMethodDoc : Document :=
  ⟨[], .iface ⟨["a"], "IFoo", false,
    [⟨true, ⟨"void", false⟩, "f", [⟨.in_, ⟨"int", false⟩, "a"⟩]⟩]⟩⟩

/-- `package a; oneway interface IBar { void f(int a); }`. -/
def acceptOnewayIfaceDoc : Document :=
  ⟨[], .iface ⟨["a"], "IBar", true,
    [⟨false, ⟨"void", false⟩, "f", [⟨.in_, ⟨"int", false⟩, "a"⟩]⟩]⟩⟩

/-- `package a; interface IFoo { void f(out int bar); }` — the oneway-out
rejection input with the `oneway` qualifier removed. -/
def plainOutDoc : Document := ⟨[], .iface ⟨["a"], "IFoo", false, [outIntMethod false]⟩⟩

/-- `package a; interface IFoo { int f(); }` — the oneway-return rejection
input with the `oneway` qualifier removed. -/
def plainIntRetDoc : Document :=
  ⟨[], .iface ⟨["a"], "IFoo", false, [⟨false, ⟨"int", false⟩, "f", []⟩]⟩⟩

/-- The method `void f(in Inner c);`. -/
def innerParamMethod : Method :=
  ⟨false, ⟨"void", false⟩, "f", [⟨.in_, ⟨"Inner", false⟩, "c"⟩]⟩

/-- The import search finding `p/Outer.aidl`: `package p; parcelable
Outer.Inner;`. -/
def outerInnerEnv : List (String × Document) :=
  [("p.Outer", ⟨[], .parcelable ⟨["p"], ["Outer", "Inner"], none⟩⟩)]

/-- `package p; import p.Outer; interface IFoo { void f(in Inner c); }`. -/
def requireOuterDoc : Document :=
  ⟨["p.Outer"], .iface ⟨["p"], "IFoo", false, [innerParamMethod]⟩⟩

/-- `package p; interface IFoo { void f(in Inner c); }` (no import; the
compound parcelable is known only from a preprocessed entry). -/
def compoundFromPreDoc : Document :=
  ⟨[], .iface ⟨["p"], "IFoo", false, [innerParamMethod]⟩⟩

/-- The import search finding `bar/IBar.aidl`: `package bar; interface IBar {}`. -/
def barIBarEnv : List (String × Document) :=
  [("bar.IBar", ⟨[], .iface ⟨["bar"], "IBar", false, []⟩⟩)]

/-- `package foo; import bar.IBar; interface IFoo { void f(in IBar[] input); }`. -/
def arrayOfBindersDoc : Document :=
  ⟨["bar.IBar"], .iface ⟨["foo"], "IFoo", false,
    [⟨false, ⟨"void", false⟩, "f", [⟨.in_, ⟨"IBar", true⟩, "input"⟩]⟩]⟩⟩

/-- `interface IFoo { }` with no package line. -/
def packagelessIfaceDoc : Document := ⟨[], .iface ⟨[], "IFoo", false, []⟩⟩

/-- `package a; interface IFoo { }`. -/
def packagedIfaceDoc : Document := ⟨[], .iface ⟨["a"], "IFoo", false, []⟩⟩

/-- `package p; parcelable Outer.Inner;`. -/
def outerParcelableDoc : Document := ⟨[], .parcelable ⟨["p"], ["Outer", "Inner"], none⟩⟩

/-- `package one; import p.Outer; interface IBar {}`. -/
def oneIBarImportingDoc : Document := ⟨["p.Outer"], .iface ⟨["one"], "IBar", false, []⟩⟩

/-- The two inputs of the preprocessed-cache write, in input order. -/
def preprocessInputs : List Document := [outerParcelableDoc, oneIBarImportingDoc]

/-- `package p; parcelable IFoo;` — a parcelable-only compilation input. -/
def parcelableOnlyDoc : Document := ⟨[], .parcelable ⟨["p"], ["IFoo"], none⟩⟩

/-- The parcelable `Foo` in package `a.goog` of the container-type scenario. -/
def fooParcelable : ParcelableDecl := ⟨["a", "goog"], ["Foo"], none⟩

/-- Registering `Foo` into a fresh Java namespace. -/
def fooAddResult : Bool × TypeNamespace :=
  (TypeNamespace.init .java).AddParcelableType fooParcelable "type_java_unittest.cpp"

/-- The namespace after `Foo` is registered. -/
def fooAddedNs : TypeNamespace := fooAddResult.2

/-- Adding the container type `List<Foo>` after `Foo` is known. -/
def listFooResult : Bool × TypeNamespace := fooAddedNs.MaybeAddContainerType "List<Foo>"

/-- The import search finding `p/Bar.aidl`: `package p; parcelable Bar from
"baz/header";`. -/
def nativeBarEnv : List (String × Document) :=
  [("p.Bar", ⟨[], .parcelable ⟨["p"], ["Bar"], some "baz/header"⟩⟩)]

/-- `package p; import p.Bar; interface IFoo { }`. -/
def nativeBarDoc : Document := ⟨["p.Bar"], .iface ⟨["p"], "IFoo", false, []⟩⟩

/-- The native-parcelable scenario under the C++ backend. -/
def nativeBarCppRun : Option Decl × TypeNamespace :=
  load_and_validate_aidl [] nativeBarEnv nativeBarDoc (TypeNamespace.init .cpp)

/-- The native-parcelable scenario under the Java backend. -/
def nativeBarJavaRun : Option Decl × TypeNamespace :=
  load_and_validate_aidl [] nativeBarEnv nativeBarDoc (TypeNamespace.init .java)

/-! ## Helper lemmas -/

theorem all_imp_of_pointwise {α : Type} {p q : α → Bool} (h : ∀ c, p c = true → q c = true)
    {l : List α} (hl : l.all p = true) : l.all q = true := by
  rw [List.all_eq_true] at hl ⊢
  exact fun c hc => h c (hl c hc)

theorem all_eq_false_of_mem {α : Type} {p : α → Bool} {l : List α} {a : α}
    (ha : a ∈ l) (hp : p a = false) : l.all p = false := by
  cases h : l.all p with
  | false => rfl
  | true =>
    rw [List.all_eq_true] at h
    rw [h a ha] at hp
    cases hp

theorem methodOnewayOk_eq_false {io : Bool} {m : Method}
    (h : onewayViolation io m = true) : methodOnewayOk io m = false := by
  unfold onewayViolation at h
  unfold methodOnewayOk
  rw [Bool.and_eq_true] at h
  obtain ⟨h1, h2⟩ := h
  rw [h1]
  simp only [Bool.not_true, Bool.false_or]
  rw [Bool.or_eq_true] at h2
  rcases h2 with hr | hp
  · rw [Bool.not_eq_true'] at hr
    rw [hr, Bool.false_and]
  · rw [List.any_eq_true] at hp
    obtain ⟨p, hmem, hpd⟩ := hp
    rw [Bool.not_eq_true'] at hpd
    rw [all_eq_false_of_mem hmem hpd, Bool.and_false]

theorem validateMethod_eq_false {ns : TypeNamespace} {io : Bool} {m : Method}
    (h : methodOnewayOk io m = false) : validateMethod ns io m = false := by
  unfold validateMethod
  rw [h, Bool.false_and, Bool.false_and]

theorem validateDoc_eq_false {ns : TypeNamespace} {doc : Document} {i : InterfaceDecl}
    {m : Method} (hdecl : doc.decl = .iface i) (hm : m ∈ i.methods)
    (hv : validateMethod ns i.oneway m = false) : validateDoc ns doc = false := by
  unfold validateDoc
  rw [hdecl]
  show ((ns.backend == Backend.java || !i.package.isEmpty)
      && i.methods.all fun m => validateMethod ns i.oneway m) = false
  rw [all_eq_false_of_mem hm hv, Bool.and_false]

theorem load_result_none_of_validate {pp : List String} {env : List (String × Document)}
    {doc : Document} {ns : TypeNamespace}
    (h : ∀ ns3 : TypeNamespace, validateDoc ns3 doc = false) :
    (load_and_validate_aidl pp env doc ns).1 = none := by
  unfold load_and_validate_aidl
  cases hl : loadPreprocessedList pp ns with
  | none => rfl
  | some ns1 =>
    simp only
    cases hr : resolveImports env (ns1.addFromFile doc.decl) doc.imports with
    | none => rfl
    | some ns3 => simp [h ns3]

/-! ## The claims -/

/-- C1: Import precedence.  With the preprocessed entry `interface
another.IBar;` and the real file import `one.IBar`, the pipeline succeeds,
both qualified names answer `HasType`, and the short-name lookup `Find("IBar")`
returns the file-backed descriptor, whose qualified name is `one.IBar`. -/
theorem C1_import_precedence :
    preferImportRun.1.isSome = true
      ∧ preferImportRun.2.HasType "one.IBar" = true
      ∧ preferImportRun.2.HasType "another.IBar" = true
      ∧ (preferImportRun.2.Find "IBar").map TypeDescriptor.QualifiedName = some "one.IBar" := by
  decide

/-- C3: Nested-parcelable qualification with the legacy carve-out.  Importing
`p.Outer` (declaring `Outer.Inner`) through a real file and referencing bare
`Inner` fails resolution and yields no AST; the same reference succeeds when
`p.Outer.Inner` is known only from a preprocessed entry. -/
theorem C3_nested_parcelable_qualification :
    (load_and_validate_aidl [] outerInnerEnv requireOuterDoc (TypeNamespace.init .java)).1 = none
      ∧ (load_and_validate_aidl ["parcelable p.Outer.Inner;"] [] compoundFromPreDoc
          (TypeNamespace.init .java)).1.isSome = true := by
  decide

/-- C5: Backend-dependent package requirement.  A packageless interface file
validates under the Java backend and fails under the C++ backend; with a
package line both backends validate it. -/
theorem C5_backend_package_requirement :
    (runJava packagelessIfaceDoc).isSome = true
      ∧ runCpp packagelessIfaceDoc = none
      ∧ (runJava packagedIfaceDoc).isSome = true
      ∧ (runCpp packagedIfaceDoc).isSome = true := by
  decide

/-- C7: Parcelable-only policy flag.  Compiling a parcelable-only file
returns 0 with the fail-on-parcelable flag unset and nonzero with it set,
while the load-and-validate stage itself (which takes no such flag) returns
the validated parcelable either way — the policy lives in the driver. -/
theorem C7_fail_on_parcelable :
    compile_aidl_to_java false [] [] parcelableOnlyDoc = 0
      ∧ compile_aidl_to_java true [] [] parcelableOnlyDoc = 1
      ∧ (load_and_validate_aidl [] [] parcelableOnlyDoc (TypeNamespace.init .java)).1
          = some parcelableOnlyDoc.decl := by
  decide

/-- C8: Container-type gating.  On a fresh Java namespace `Foo` and
`List<Foo>` are unknown and `MaybeAddContainerType("List<Foo>")` fails; after
`AddParcelableType` registers `Foo` (returning true), `Foo` is known but
`List<Foo>` still is not; `MaybeAddContainerType("List<Foo>")` then returns
true and `List<Foo>` becomes known. -/
theorem C8_container_type_gating :
    (TypeNamespace.init .java).HasType "Foo" = false
      ∧ (TypeNamespace.init .java).HasType "List<Foo>" = false
      ∧ ((TypeNamespace.init .java).MaybeAddContainerType "List<Foo>").1 = false
      ∧ fooAddResult.1 = true
      ∧ fooAddedNs.HasType "Foo" = true
      ∧ fooAddedNs.HasType "List<Foo>" = false
      ∧ listFooResult.1 = true
      ∧ listFooResult.2.HasType "List<Foo>" = true := by
  decide

/-- C9: Native-backed parcelable metadata.  `parcelable Bar from
"baz/header";` imported into an interface validates under both backends; the
C++ descriptor for `Bar` spells `::p::Bar` and exposes exactly the declared
header, while the Java descriptor instantiates as `p.Bar` and exposes no
header. -/
theorem C9_native_parcelable_metadata :
    nativeBarCppRun.1.isSome = true
      ∧ (nativeBarCppRun.2.Find "Bar").map TypeDescriptor.CppType = some "::p::Bar"
      ∧ (nativeBarCppRun.2.Find "Bar").map TypeDescriptor.GetHeaders = some ["baz/header"]
      ∧ nativeBarJavaRun.1.isSome = true
      ∧ (nativeBarJavaRun.2.Find "Bar").map TypeDescriptor.InstantiableName = some "p.Bar"
      ∧ (nativeBarJavaRun.2.Find "Bar").map TypeDescriptor.GetHeaders = some [] := by
  decide

/-- C2: Oneway constraint.  Whatever the preprocessed files, import
environment and backend namespace, an interface file containing a method that
is oneway (directly or via its interface) with an `out`/`inout` parameter or a
non-void return yields no AST; and the otherwise-identical non-oneway
variants, as well as oneway methods with only `in` parameters and void
return, validate under both backends. -/
theorem C2_oneway_constraint (pp : List String) (env : List (String × Document))
    (ns : TypeNamespace) (doc : Document) (i : InterfaceDecl) (m : Method)
    (hdecl : doc.decl = .iface i) (hm : m ∈ i.methods)
    (hv : onewayViolation i.oneway m = true) :
    (load_and_validate_aidl pp env doc ns).1 = none
      ∧ (runJava acceptOnewayMethodDoc).isSome = true
      ∧ (runCpp acceptOnewayMethodDoc).isSome = true
      ∧ (runJava acceptOnewayIfaceDoc).isSome = true
      ∧ (runCpp acceptOnewayIfaceDoc).isSome = true
      ∧ (runJava plainOutDoc).isSome = true
      ∧ (runCpp plainOutDoc).isSome = true
      ∧ (runJava plainIntRetDoc).isSome = true
      ∧ (runCpp plainIntRetDoc).isSome = true := by
  refine ⟨?_, by decide, by decide, by decide, by decide, by decide, by decide,
    by decide, by decide⟩
  exact load_result_none_of_validate fun ns3 =>
    validateDoc_eq_false hdecl hm
      (validateMethod_eq_false (methodOnewayOk_eq_false hv))

/-- Witness for C2 at the `oneway interface IFoo { void f(out int bar); }`
input of the tests, under a fresh Java namespace. -/
theorem C2_oneway_constraint_witness :
    (load_and_validate_aidl [] [] onewayIfaceOutDoc (TypeNamespace.init .java)).1 = none
      ∧ (runJava acceptOnewayMethodDoc).isSome = true
      ∧ (runCpp acceptOnewayMethodDoc).isSome = true
      ∧ (runJava acceptOnewayIfaceDoc).isSome = true
      ∧ (runCpp acceptOnewayIfaceDoc).isSome = true
      ∧ (runJava plainOutDoc).isSome = true
      ∧ (runCpp plainOutDoc).isSome = true
      ∧ (runJava plainIntRetDoc).isSome = true
      ∧ (runCpp plainIntRetDoc).isSome = true :=
  C2_oneway_constraint [] [] (TypeNamespace.init .java) onewayIfaceOutDoc
    ⟨["a"], "IFoo", true, [outIntMethod false]⟩ (outIntMethod false)
    rfl (by decide) (by decide)

/-- C4: No arrays of interface references.  Whatever the inputs and backend,
if a method parameter is an array and its element name resolves, in the
namespace the run produces, to a descriptor of interface kind, the run yields
no AST. -/
theorem C4_no_interface_arrays (pp : List String) (env : List (String × Document))
    (ns : TypeNamespace) (doc : Document) (i : InterfaceDecl) (m : Method)
    (p : Param) (d : TypeDescriptor)
    (hdecl : doc.decl = .iface i) (hm : m ∈ i.methods) (hp : p ∈ m.params)
    (harr : p.type.isArray = true)
    (hfind : (load_and_validate_aidl pp env doc ns).2.Find p.type.name = some d)
    (hkind : d.kind = .iface) :
    (load_and_validate_aidl pp env doc ns).1 = none := by
  unfold load_and_validate_aidl at hfind ⊢
  cases hl : loadPreprocessedList pp ns with
  | none => rfl
  | some ns1 =>
    rw [hl] at hfind
    simp only at hfind ⊢
    cases hr : resolveImports env (ns1.addFromFile doc.decl) doc.imports with
    | none => rfl
    | some ns3 =>
      rw [hr] at hfind
      simp only at hfind ⊢
      cases hval : validateDoc ns3 doc with
      | false => simp [hval]
      | true =>
        exfalso
        have htok : typeOk ns3 p.type = false := by
          unfold typeOk
          rw [hfind]
          simp [harr, hkind]
        unfold validateDoc at hval
        rw [hdecl] at hval
        have hall : i.methods.all (fun m => validateMethod ns3 i.oneway m) = true := by
          have := (Bool.and_eq_true _ _).mp hval
          exact this.2
        have hmeth := (List.all_eq_true.mp hall) m hm
        unfold validateMethod at hmeth
        have hpall : m.params.all (fun q => typeOk ns3 q.type) = true := by
          have := (Bool.and_eq_true _ _).mp hmeth
          exact this.2
        have := (List.all_eq_true.mp hpall) p hp
        rw [htok] at this
        cases this

/-- Witness for C4 at the `import bar.IBar; interface IFoo { void f(in IBar[]
input); }` input of the tests, under a fresh Java namespace. -/
theorem C4_no_interface_arrays_witness :
    (load_and_validate_aidl [] barIBarEnv arrayOfBindersDoc (TypeNamespace.init .java)).1
      = none :=
  C4_no_interface_arrays [] barIBarEnv (TypeNamespace.init .java) arrayOfBindersDoc
    ⟨["foo"], "IFoo", false,
      [⟨false, ⟨"void", false⟩, "f", [⟨.in_, ⟨"IBar", true⟩, "input"⟩]⟩]⟩
    ⟨false, ⟨"void", false⟩, "f", [⟨.in_, ⟨"IBar", true⟩, "input"⟩]⟩
    ⟨.in_, ⟨"IBar", true⟩, "input"⟩
    ⟨["bar", "IBar"], .iface, none⟩
    rfl (by decide) (by decide) rfl (by decide) rfl

/-! ## Registration of preprocessed entries -/

theorem hasType_addPreprocessed_mono (ns : TypeNamespace) (e : TypeKind × String)
    (n : String) (h : ns.HasType n = true) : (ns.addPreprocessed e).HasType n = true := by
  unfold TypeNamespace.HasType TypeNamespace.Find at h ⊢
  unfold TypeNamespace.addPreprocessed
  simp only [List.find?_append]
  cases hf : ns.entries.find? (fun x => x.1 == n) with
  | none => rw [hf] at h; simp at h
  | some x => simp [Option.or]

theorem hasType_addPreprocessed_self (ns : TypeNamespace) (e : TypeKind × String) :
    (ns.addPreprocessed e).HasType e.2 = true
      ∧ (ns.addPreprocessed e).HasType (simpleNameStr e.2) = true := by
  constructor
  · unfold TypeNamespace.HasType TypeNamespace.Find TypeNamespace.addPreprocessed
    simp only [List.find?_append]
    cases hf : ns.entries.find? (fun x => x.1 == e.2) with
    | none => simp [List.find?, Option.or]
    | some x => simp [Option.or]
  · unfold TypeNamespace.HasType TypeNamespace.Find TypeNamespace.addPreprocessed
    simp only [List.find?_append]
    cases hf : ns.entries.find? (fun x => x.1 == simpleNameStr e.2) with
    | none =>
      cases hb : e.2 == simpleNameStr e.2 with
      | false => simp [List.find?, hb, Option.or]
      | true => simp [List.find?, hb, Option.or]
    | some x => simp [Option.or]

theorem hasType_foldl_addPreprocessed_mono (es : List (TypeKind × String))
    (ns : TypeNamespace) (n : String) (h : ns.HasType n = true) :
    (es.foldl TypeNamespace.addPreprocessed ns).HasType n = true := by
  induction es generalizing ns with
  | nil => exact h
  | cons a t ih =>
    rw [List.foldl_cons]
    exact ih _ (hasType_addPreprocessed_mono ns a n h)

theorem hasType_foldl_addPreprocessed (es : List (TypeKind × String))
    (ns : TypeNamespace) (e : TypeKind × String) (h : e ∈ es) :
    (es.foldl TypeNamespace.addPreprocessed ns).HasType e.2 = true
      ∧ (es.foldl TypeNamespace.addPreprocessed ns).HasType (simpleNameStr e.2) = true := by
  induction es generalizing ns with
  | nil => cases h
  | cons a t ih =>
    rw [List.foldl_cons]
    rcases List.mem_cons.mp h with rfl | ht
    · have base := hasType_addPreprocessed_self ns e
      exact ⟨hasType_foldl_addPreprocessed_mono t _ _ base.1,
        hasType_foldl_addPreprocessed_mono t _ _ base.2⟩
    · exact ih _ ht

/-- C10: `parse_preprocessed_file` registers every entry it reads under both
its fully-qualified name and its bare simple name — including for plain
packaged names and for input lines with extra whitespace, since the entries
are whatever the whitespace-tolerant reader produced. -/
theorem C10_preprocessed_registers_both_names (content : String)
    (ns ns2 : TypeNamespace) (es : List (TypeKind × String)) (e : TypeKind × String)
    (h1 : parsePreprocessedEntries content = some es) (h2 : e ∈ es)
    (h3 : parse_preprocessed_file content ns = some ns2) :
    ns2.HasType e.2 = true ∧ ns2.HasType (simpleNameStr e.2) = true := by
  unfold parse_preprocessed_file at h3
  rw [h1] at h3
  simp only [Option.map_some'] at h3
  cases h3
  exact hasType_foldl_addPreprocessed es ns e h2

/-- Witness for C10 at the whitespace-laden test input `parcelable    a.Foo;`
/ `  interface b.IBar  ;` (each entry checked under both its qualified and
its simple name, `simpleNameStr` evaluating to `Foo` and `IBar`). -/
theorem C10_preprocessed_registers_both_names_witness :
    ((((TypeNamespace.init .java).addPreprocessed (TypeKind.parcelable, "a.Foo")).addPreprocessed
        (TypeKind.iface, "b.IBar")).HasType "a.Foo" = true
      ∧ (((TypeNamespace.init .java).addPreprocessed (TypeKind.parcelable, "a.Foo")).addPreprocessed
          (TypeKind.iface, "b.IBar")).HasType (simpleNameStr "a.Foo") = true)
    ∧ ((((TypeNamespace.init .java).addPreprocessed (TypeKind.parcelable, "a.Foo")).addPreprocessed
        (TypeKind.iface, "b.IBar")).HasType "b.IBar" = true
      ∧ (((TypeNamespace.init .java).addPreprocessed (TypeKind.parcelable, "a.Foo")).addPreprocessed
          (TypeKind.iface, "b.IBar")).HasType (simpleNameStr "b.IBar") = true)
    ∧ simpleNameStr "a.Foo" = "Foo" ∧ simpleNameStr "b.IBar" = "IBar" :=
  ⟨C10_preprocessed_registers_both_names "parcelable    a.Foo;\n  interface b.IBar  ;\t"
      (TypeNamespace.init .java) _ [(TypeKind.parcelable, "a.Foo"), (TypeKind.iface, "b.IBar")]
      (TypeKind.parcelable, "a.Foo") (by decide) (by decide) (by decide),
    C10_preprocessed_registers_both_names "parcelable    a.Foo;\n  interface b.IBar  ;\t"
      (TypeNamespace.init .java) _ [(TypeKind.parcelable, "a.Foo"), (TypeKind.iface, "b.IBar")]
      (TypeKind.iface, "b.IBar") (by decide) (by decide) (by decide),
    by decide, by decide⟩

/-! ## The codec round trip -/

theorem nameChar_not_ws {c : Char} (h : nameChar c = true) : c.isWhitespace = false := by
  unfold nameChar at h
  rw [Bool.and_eq_true] at h
  have h1 := h.1
  rwa [Bool.not_eq_true'] at h1

theorem goodChar_nameChar {c : Char} (h : goodChar c = true) : nameChar c = true := by
  unfold goodChar at h
  exact ((Bool.and_eq_true _ _).mp h).1

theorem nameChar_not_lf {c : Char} (h : nameChar c = true) : (c == '\n') = false := by
  have hw := nameChar_not_ws h
  cases hcb : c == '\n' with
  | false => rfl
  | true =>
    rw [eq_of_beq hcb] at hw
    exact absurd hw (by decide)

theorem all_nameChar_not_ws {l : List Char} (h : l.all nameChar = true) :
    l.all (fun c => !c.isWhitespace) = true :=
  all_imp_of_pointwise (fun c hc => by rw [nameChar_not_ws hc]; rfl) h

theorem dottedChars_spec {cs : List String} (h : validQualName cs = true) :
    dottedChars cs ≠ [] ∧ (dottedChars cs).all nameChar = true := by
  induction cs with
  | nil => exact absurd h (by decide)
  | cons s rest ih =>
    unfold validQualName at h
    rw [Bool.and_eq_true] at h
    obtain ⟨-, hall⟩ := h
    rw [List.all_cons, Bool.and_eq_true] at hall
    obtain ⟨hs, hrest⟩ := hall
    unfold validComponent at hs
    rw [Bool.and_eq_true] at hs
    obtain ⟨hne, hgood⟩ := hs
    cases rest with
    | nil =>
      refine ⟨?_, ?_⟩
      · show s.data ≠ []
        intro hd
        rw [hd] at hne
        exact absurd hne (by decide)
      · show s.data.all nameChar = true
        exact all_imp_of_pointwise (fun c hc => goodChar_nameChar hc) hgood
    | cons r t =>
      have hsub : validQualName (r :: t) = true := by
        unfold validQualName
        simp [hrest]
      obtain ⟨ih1, ih2⟩ := ih hsub
      refine ⟨?_, ?_⟩
      · show s.data ++ '.' :: dottedChars (r :: t) ≠ []
        simp
      · show (s.data ++ '.' :: dottedChars (r :: t)).all nameChar = true
        rw [List.all_append, List.all_cons]
        rw [all_imp_of_pointwise (fun c hc => goodChar_nameChar hc) hgood, ih2]
        rfl

theorem trimLeft_eq_self {l : List Char}
    (h : ∀ c, l.head? = some c → c.isWhitespace = false) : trimLeftChars l = l := by
  cases l with
  | nil => rfl
  | cons a t =>
    unfold trimLeftChars
    rw [List.dropWhile_cons, h a rfl]
    simp

theorem trimChars_eq_self {l : List Char}
    (h1 : ∀ c, l.head? = some c → c.isWhitespace = false)
    (h2 : ∀ c, l.getLast? = some c → c.isWhitespace = false) : trimChars l = l := by
  unfold trimChars
  rw [trimLeft_eq_self h1]
  rw [trimLeft_eq_self (fun c hc => h2 c (by rwa [List.head?_reverse] at hc))]
  exact List.reverse_reverse l

theorem trimChars_sandwich {a b : Char} {xs : List Char} (ha : a.isWhitespace = false)
    (hb : b.isWhitespace = false) : trimChars (a :: xs ++ [b]) = a :: xs ++ [b] := by
  apply trimChars_eq_self
  · intro c hc
    rw [show (a :: xs ++ [b]).head? = some a from rfl] at hc
    cases hc
    exact ha
  · intro c hc
    rw [show a :: xs ++ [b] = (a :: xs) ++ [b] from rfl, List.getLast?_concat] at hc
    cases hc
    exact hb

theorem splitWordsAux_all_not_ws {v : List Char} (acc : List Char)
    (h : v.all (fun c => !c.isWhitespace) = true) :
    splitWordsAux v acc = if acc.reverse ++ v = [] then [] else [acc.reverse ++ v] := by
  induction v generalizing acc with
  | nil =>
    unfold splitWordsAux
    cases acc with
    | nil => simp
    | cons a t => simp
  | cons c v ih =>
    rw [List.all_cons, Bool.and_eq_true] at h
    obtain ⟨hc, hv⟩ := h
    rw [Bool.not_eq_true'] at hc
    unfold splitWordsAux
    rw [hc]
    simp only [Bool.false_eq_true, if_false]
    rw [ih _ hv]
    simp [List.append_assoc]

theorem splitWordsAux_word {w v : List Char} (acc : List Char)
    (hw : w.all (fun c => !c.isWhitespace) = true) :
    splitWordsAux (w ++ ' ' :: v) acc =
      if acc.reverse ++ w = [] then splitWords v
      else (acc.reverse ++ w) :: splitWords v := by
  induction w generalizing acc with
  | nil =>
    show splitWordsAux (' ' :: v) acc = _
    unfold splitWordsAux
    rw [show (' ' : Char).isWhitespace = true from by decide]
    cases acc with
    | nil => simp [splitWords]
    | cons a t => simp [splitWords]
  | cons c w ih =>
    rw [List.all_cons, Bool.and_eq_true] at hw
    obtain ⟨hc, hw2⟩ := hw
    rw [Bool.not_eq_true'] at hc
    show splitWordsAux (c :: (w ++ ' ' :: v)) acc = _
    unfold splitWordsAux
    rw [hc]
    simp only [Bool.false_eq_true, if_false]
    rw [ih _ hw2]
    simp [List.append_assoc]

theorem splitWords_pair {w v : List Char} (hw : w.all (fun c => !c.isWhitespace) = true)
    (hw0 : w ≠ []) (hv : v.all (fun c => !c.isWhitespace) = true) (hv0 : v ≠ []) :
    splitWords (w ++ ' ' :: v) = [w, v] := by
  unfold splitWords
  rw [splitWordsAux_word [] hw]
  simp only [List.reverse_nil, List.nil_append]
  rw [if_neg hw0]
  rw [show splitWords v = splitWordsAux v [] from rfl, splitWordsAux_all_not_ws [] hv]
  simp [hv0]

theorem parsePPLine_words {kc : List Char} (hkc0 : kc ≠ [])
    (hkcw : kc.all (fun c => !c.isWhitespace) = true)
    {name : List Char} (hn : name.all nameChar = true) (hne : name ≠ []) :
    parsePPLine (kc ++ ' ' :: name ++ [';']) =
      (if kc = "parcelable".data then some (some (TypeKind.parcelable, String.mk name))
       else if kc = "interface".data then some (some (TypeKind.iface, String.mk name))
       else none) := by
  obtain ⟨a, t, rfl⟩ : ∃ a t, kc = a :: t := by
    cases kc with
    | nil => exact absurd rfl hkc0
    | cons a t => exact ⟨a, t, rfl⟩
  have haw : a.isWhitespace = false := by
    have := List.all_eq_true.mp hkcw a (List.mem_cons_self a t)
    rwa [Bool.not_eq_true'] at this
  obtain ⟨L, b, rfl⟩ : ∃ L b, name = L ++ [b] := by
    rcases List.eq_nil_or_concat name with hnil | ⟨L, b, hcat⟩
    · exact absurd hnil hne
    · exact ⟨L, b, by rw [hcat, List.concat_eq_append]⟩
  have hbw : b.isWhitespace = false :=
    nameChar_not_ws (List.all_eq_true.mp hn b (by simp))
  have hnws : (L ++ [b]).all (fun c => !c.isWhitespace) = true := all_nameChar_not_ws hn
  have hline : (a :: t) ++ ' ' :: (L ++ [b]) ++ [';']
      = a :: (t ++ ' ' :: (L ++ [b])) ++ [';'] := by
    simp
  have htrim1 : trimChars ((a :: t) ++ ' ' :: (L ++ [b]) ++ [';'])
      = (a :: t) ++ ' ' :: (L ++ [b]) ++ [';'] := by
    rw [hline]
    exact trimChars_sandwich haw (by decide)
  have hrev : ((a :: t) ++ ' ' :: (L ++ [b]) ++ [';']).reverse
      = ';' :: ((a :: t) ++ ' ' :: (L ++ [b])).reverse := by
    rw [hline]
    rw [show a :: (t ++ ' ' :: (L ++ [b])) ++ [';']
        = (a :: (t ++ ' ' :: (L ++ [b]))) ++ [';'] from rfl]
    rw [List.reverse_append]
    rfl
  have htrim2 : trimChars ((a :: t) ++ ' ' :: (L ++ [b])) = (a :: t) ++ ' ' :: (L ++ [b]) := by
    have hshape : (a :: t) ++ ' ' :: (L ++ [b]) = a :: (t ++ ' ' :: L) ++ [b] := by
      simp
    rw [hshape]
    exact trimChars_sandwich haw hbw
  have hsplit : splitWords ((a :: t) ++ ' ' :: (L ++ [b])) = [a :: t, L ++ [b]] :=
    splitWords_pair hkcw (by simp) hnws (by simp)
  unfold parsePPLine
  rw [htrim1, hrev]
  rw [show ppLineCore (';' :: ((a :: t) ++ ' ' :: (L ++ [b])).reverse)
      = ppBody ((a :: t) ++ ' ' :: (L ++ [b])).reverse.reverse from rfl]
  rw [List.reverse_reverse]
  unfold ppBody
  rw [htrim2, hsplit]
  rfl

theorem parsePPLine_entry {k : TypeKind} (hk : k = TypeKind.parcelable ∨ k = TypeKind.iface)
    {name : List Char} (hn : name.all nameChar = true) (hne : name ≠ []) :
    parsePPLine (kindChars k ++ ' ' :: name ++ [';']) = some (some (k, String.mk name)) := by
  rcases hk with rfl | rfl
  · rw [parsePPLine_words (by decide) (by decide) hn hne]
    rw [if_pos (show kindChars TypeKind.parcelable = "parcelable".data from rfl)]
  · rw [parsePPLine_words (by decide) (by decide) hn hne]
    rw [if_neg (show ¬ kindChars TypeKind.iface = "parcelable".data from by decide)]
    rw [if_pos (show kindChars TypeKind.iface = "interface".data from rfl)]

theorem splitLinesChars_append {l rest : List Char}
    (h : l.all (fun c => !(c == '\n')) = true) :
    splitLinesChars (l ++ '\n' :: rest) = l :: splitLinesChars rest := by
  induction l with
  | nil =>
    show splitLinesChars ('\n' :: rest) = [] :: splitLinesChars rest
    rfl
  | cons c l ih =>
    rw [List.all_cons, Bool.and_eq_true] at h
    obtain ⟨hc, hl⟩ := h
    have hcne : ¬ c = '\n' := by
      intro he
      rw [he] at hc
      exact absurd hc (by decide)
    show splitLinesChars (c :: (l ++ '\n' :: rest)) = (c :: l) :: splitLinesChars rest
    rw [show splitLinesChars (c :: (l ++ '\n' :: rest))
        = if c = '\n' then [] :: splitLinesChars (l ++ '\n' :: rest)
          else consHead c (splitLinesChars (l ++ '\n' :: rest)) from rfl]
    rw [if_neg hcne, ih hl]
    rfl

theorem preprocessLine_no_newline {doc : Document} (h : validDoc doc = true) :
    (preprocessLine doc).all (fun c => !(c == '\n')) = true := by
  unfold preprocessLine
  rw [List.all_eq_true]
  intro c hc
  have hdot := (dottedChars_spec h).2
  rw [List.mem_append] at hc
  rcases hc with hc | hs
  · rw [List.mem_append] at hc
    rcases hc with hk | hc
    · have hkc : (kindChars (declKind doc.decl)).all (fun x => !(x == '\n')) = true := by
        cases declKind doc.decl <;> decide
      exact List.all_eq_true.mp hkc c hk
    · rw [List.mem_cons] at hc
      rcases hc with rfl | hd
      · decide
      · show (!(c == '\n')) = true
        rw [nameChar_not_lf (List.all_eq_true.mp hdot c hd)]
        rfl
  · rw [List.mem_singleton] at hs
    subst hs
    decide

theorem parsePPLines_canonical (docs : List Document)
    (h : ∀ d ∈ docs, validDoc d = true) :
    parsePPLines (splitLinesChars ((docs.map (fun d => preprocessLine d ++ ['\n'])).flatten))
      = some (docs.map declEntry) := by
  induction docs with
  | nil => rfl
  | cons d docs ih =>
    have hd := h d (List.mem_cons_self d docs)
    have hrest : ∀ x ∈ docs, validDoc x = true := fun x hx => h x (List.mem_cons_of_mem d hx)
    rw [List.map_cons, List.flatten_cons, List.append_assoc]
    rw [show ['\n'] ++ (docs.map (fun x => preprocessLine x ++ ['\n'])).flatten
        = '\n' :: (docs.map (fun x => preprocessLine x ++ ['\n'])).flatten from rfl]
    rw [splitLinesChars_append (preprocessLine_no_newline hd)]
    have hk : declKind d.decl = TypeKind.parcelable ∨ declKind d.decl = TypeKind.iface := by
      cases d.decl with
      | iface i => exact Or.inr rfl
      | parcelable p => exact Or.inl rfl
    have hline : parsePPLine (preprocessLine d) = some (some (declEntry d)) :=
      parsePPLine_entry hk (dottedChars_spec hd).2 (dottedChars_spec hd).1
    show (match parsePPLine (preprocessLine d) with
      | none => none
      | some none =>
        parsePPLines (splitLinesChars ((docs.map (fun x => preprocessLine x ++ ['\n'])).flatten))
      | some (some e) =>
        (parsePPLines
          (splitLinesChars ((docs.map (fun x => preprocessLine x ++ ['\n'])).flatten))).map
          (fun es => e :: es)) = some ((d :: docs).map declEntry)
    rw [hline, ih hrest]
    rfl

/-- C6: Preprocessed-cache round trip.  For every list of well-named input
declarations the writer emits exactly one canonical `<kind> <qualified.name>;`
line per declaration in input order (on the concrete test inputs, exactly
`parcelable p.Outer.Inner;\ninterface one.IBar;\n`), and the reader parses
that output back to exactly the same (kind, qualified name) entries, in
order, with no duplicates and no loss. -/
theorem C6_preprocessed_round_trip (docs : List Document)
    (h : ∀ d ∈ docs, validDoc d = true) :
    parsePreprocessedEntries (preprocess_aidl docs) = some (docs.map declEntry)
      ∧ preprocess_aidl preprocessInputs
          = "parcelable p.Outer.Inner;\ninterface one.IBar;\n" := by
  refine ⟨?_, by decide⟩
  exact parsePPLines_canonical docs h

/-- Witness for C6 at the two test inputs `package p; parcelable Outer.Inner;`
and `package one; import p.Outer; interface IBar {}`. -/
theorem C6_preprocessed_round_trip_witness :
    parsePreprocessedEntries (preprocess_aidl preprocessInputs)
        = some (preprocessInputs.map declEntry)
      ∧ preprocess_aidl preprocessInputs
          = "parcelable p.Outer.Inner;\ninterface one.IBar;\n" :=
  C6_preprocessed_round_trip preprocessInputs (by decide)

end Aidl
